import Mathlib

/-!
Formal model of the PicStudio image editor core, shallowly embedded in Lean.
JavaScript numbers are modelled by exact rationals; JS truthiness tests on
numeric values are modelled as explicit comparisons with 0, and optional
values as Option.

The development covers:
- the crop-rectangle drag handler of CropOverlay (components/CropOverlay,
  function handleWindowMove), including aspect-ratio locking;
- the geometric part of the two-pass transform pipeline
  (utils/imageUtils.ts, getTransformedDimensions and processImage);
- the pan/zoom viewport operations of the app shell (App.tsx: handleWheel,
  zoomIn, zoomOut, resetView and the first-load auto-fit effect);
- the error-handling state transitions of handleProcess and
  updateIntermediateImage;
- the rotation buttons of ControlPanel.
-/

namespace PicStudio

/-- A crop rectangle in intermediate (content) coordinates, as in types.ts. -/
structure CropRect where
  x : ℚ
  y : ℚ
  width : ℚ
  height : ℚ
deriving DecidableEq

/-- The five drag zones of the crop overlay. -/
inductive DragType where
  | move
  | nw
  | ne
  | sw
  | se
deriving DecidableEq

/-- Models the JS test dragType.includes(Char.w). -/
def hasWEdge : DragType → Bool
  | .nw => true
  | .sw => true
  | _ => false

/-- Models the JS test on the east edge. -/
def hasEEdge : DragType → Bool
  | .ne => true
  | .se => true
  | _ => false

/-- Models the JS test on the north edge. -/
def hasNEdge : DragType → Bool
  | .nw => true
  | .ne => true
  | _ => false

/-- Models the JS test on the south edge. -/
def hasSEdge : DragType → Bool
  | .sw => true
  | .se => true
  | _ => false

/-- The four working edges of the resize computation in handleWindowMove. -/
structure Edges where
  l : ℚ
  t : ℚ
  r : ℚ
  b : ℚ
deriving DecidableEq

/-- Models the statement sequence: if (newLeft < 0) newLeft = 0. -/
def clampLow (v : ℚ) : ℚ := if v < 0 then 0 else v

/-- Models: if (newRight > bound) newRight = bound. -/
def clampHigh (v bound : ℚ) : ℚ := if v > bound then bound else v

/-- The raw-delta edge adjustment and bounds check of handleWindowMove
(CropOverlay): apply the pointer delta to the edges adjacent to the dragged
corner with a 10 px minimum extent, then clamp every edge into the image. -/
def resizeEdges (dragType : DragType) (startRect : CropRect)
    (deltaX deltaY boundsW boundsH : ℚ) : Edges :=
  let newLeft := startRect.x
  let newRight := startRect.x + startRect.width
  let newTop := startRect.y
  let newBottom := startRect.y + startRect.height
  let newLeft := if hasWEdge dragType then
      min (startRect.x + deltaX) (newRight - 10) else newLeft
  let newRight := if hasEEdge dragType then
      max (startRect.x + startRect.width + deltaX) (newLeft + 10) else newRight
  let newTop := if hasNEdge dragType then
      min (startRect.y + deltaY) (newBottom - 10) else newTop
  let newBottom := if hasSEdge dragType then
      max (startRect.y + startRect.height + deltaY) (newTop + 10) else newBottom
  ⟨clampLow newLeft, clampLow newTop,
   clampHigh newRight boundsW, clampHigh newBottom boundsH⟩

/-- The aspect-ratio enforcement block of handleWindowMove: derive the height
from the width, fall back to the bound-constrained axis when the derived
height leaves the image, then write the dimensions back through the corner
being dragged. -/
def aspectAdjust (dragType : DragType) (a : ℚ) (e : Edges)
    (boundsH : ℚ) : Edges :=
  let w := e.r - e.l
  let h := w / a
  let h2 : ℚ :=
    if hasSEdge dragType = true ∧ e.t + h > boundsH then boundsH - e.t
    else if hasNEdge dragType = true ∧ e.b - h < 0 then e.b
    else h
  let w2 : ℚ :=
    if hasSEdge dragType = true ∧ e.t + h > boundsH then (boundsH - e.t) * a
    else if hasNEdge dragType = true ∧ e.b - h < 0 then e.b * a
    else w
  match dragType with
  | .se => ⟨e.l, e.t, e.l + w2, e.t + h2⟩
  | .ne => ⟨e.l, e.b - h2, e.l + w2, e.b⟩
  | .sw => ⟨e.r - w2, e.t, e.r, e.t + h2⟩
  | .nw => ⟨e.r - w2, e.b - h2, e.r, e.b⟩
  | .move => e

/-- Models toImageDelta: a screen-pixel value divided by the view scale. -/
def toImageDelta (val scale : ℚ) : ℚ := val / scale

/-- One pointer-move step of the CropOverlay drag handler (handleWindowMove):
convert the screen delta to image coordinates, then either translate the
rectangle (move) with translation-limit clamping, or resize it through the
dragged corner with edge clamping and optional aspect-ratio locking. The
aspectRatio argument follows JS truthiness: none or a zero value disables
the aspect block. -/
def handleWindowMove (dragType : DragType) (startRect : CropRect)
    (screenDx screenDy scale boundsW boundsH : ℚ)
    (aspectRatio : Option ℚ) : CropRect :=
  let deltaX := toImageDelta screenDx scale
  let deltaY := toImageDelta screenDy scale
  if dragType = DragType.move then
    ⟨max 0 (min (startRect.x + deltaX) (boundsW - startRect.width)),
     max 0 (min (startRect.y + deltaY) (boundsH - startRect.height)),
     startRect.width, startRect.height⟩
  else
    let e := resizeEdges dragType startRect deltaX deltaY boundsW boundsH
    let e2 :=
      match aspectRatio with
      | none => e
      | some a => if a = 0 then e else aspectAdjust dragType a e boundsH
    ⟨e2.l, e2.t, e2.r - e2.l, e2.b - e2.t⟩

/-- Containment of a crop rectangle in the intermediate image bounds. -/
def rectContained (r : CropRect) (boundsW boundsH : ℚ) : Prop :=
  0 ≤ r.x ∧ 0 ≤ r.y ∧ r.x + r.width ≤ boundsW ∧ r.y + r.height ≤ boundsH

/-- The full bounds/min-size invariant of the specification. -/
def rectInvariant (r : CropRect) (boundsW boundsH : ℚ) : Prop :=
  rectContained r boundsW boundsH ∧ 10 ≤ r.width ∧ 10 ≤ r.height

instance (r : CropRect) (bw bh : ℚ) : Decidable (rectContained r bw bh) := by
  unfold rectContained; infer_instance

instance (r : CropRect) (bw bh : ℚ) : Decidable (rectInvariant r bw bh) := by
  unfold rectInvariant; infer_instance

lemma resizeEdges_nw (s : CropRect) (dx dy W H : ℚ) :
    resizeEdges DragType.nw s dx dy W H =
      ⟨clampLow (min (s.x + dx) (s.x + s.width - 10)),
       clampLow (min (s.y + dy) (s.y + s.height - 10)),
       clampHigh (s.x + s.width) W,
       clampHigh (s.y + s.height) H⟩ := rfl

lemma resizeEdges_ne (s : CropRect) (dx dy W H : ℚ) :
    resizeEdges DragType.ne s dx dy W H =
      ⟨clampLow s.x,
       clampLow (min (s.y + dy) (s.y + s.height - 10)),
       clampHigh (max (s.x + s.width + dx) (s.x + 10)) W,
       clampHigh (s.y + s.height) H⟩ := rfl

lemma resizeEdges_sw (s : CropRect) (dx dy W H : ℚ) :
    resizeEdges DragType.sw s dx dy W H =
      ⟨clampLow (min (s.x + dx) (s.x + s.width - 10)),
       clampLow s.y,
       clampHigh (s.x + s.width) W,
       clampHigh (max (s.y + s.height + dy) (s.y + 10)) H⟩ := rfl

lemma resizeEdges_se (s : CropRect) (dx dy W H : ℚ) :
    resizeEdges DragType.se s dx dy W H =
      ⟨clampLow s.x, clampLow s.y,
       clampHigh (max (s.x + s.width + dx) (s.x + 10)) W,
       clampHigh (max (s.y + s.height + dy) (s.y + 10)) H⟩ := rfl

lemma dragLow_bounds (x w dx bound : ℚ) (hx : 0 ≤ x) (hxw : x + w ≤ bound)
    (hw : 10 ≤ w) :
    0 ≤ clampLow (min (x + dx) (x + w - 10)) ∧
    clampLow (min (x + dx) (x + w - 10)) + 10 ≤ clampHigh (x + w) bound ∧
    clampHigh (x + w) bound ≤ bound := by
  simp only [clampLow, clampHigh, min_def, max_def]
  split_ifs <;> refine ⟨by linarith, by linarith, by linarith⟩

lemma dragHigh_bounds (x w dx bound : ℚ) (hx : 0 ≤ x) (hxw : x + w ≤ bound)
    (hw : 10 ≤ w) :
    0 ≤ clampLow x ∧
    clampLow x + 10 ≤ clampHigh (max (x + w + dx) (x + 10)) bound ∧
    clampHigh (max (x + w + dx) (x + 10)) bound ≤ bound := by
  simp only [clampLow, clampHigh, min_def, max_def]
  split_ifs <;> refine ⟨by linarith, by linarith, by linarith⟩

lemma resizeEdges_bounds (dt : DragType) (hdt : dt ≠ DragType.move)
    (startRect : CropRect) (dx dy W H : ℚ)
    (hinv : rectInvariant startRect W H) :
    0 ≤ (resizeEdges dt startRect dx dy W H).l ∧
    (resizeEdges dt startRect dx dy W H).l + 10 ≤ (resizeEdges dt startRect dx dy W H).r ∧
    (resizeEdges dt startRect dx dy W H).r ≤ W ∧
    0 ≤ (resizeEdges dt startRect dx dy W H).t ∧
    (resizeEdges dt startRect dx dy W H).t + 10 ≤ (resizeEdges dt startRect dx dy W H).b ∧
    (resizeEdges dt startRect dx dy W H).b ≤ H := by
  obtain ⟨⟨hx, hy, hxw, hyh⟩, hw, hh⟩ := hinv
  cases dt with
  | move => exact absurd rfl hdt
  | nw =>
      rw [resizeEdges_nw]
      obtain ⟨a1, a2, a3⟩ := dragLow_bounds startRect.x startRect.width dx W hx hxw hw
      obtain ⟨b1, b2, b3⟩ := dragLow_bounds startRect.y startRect.height dy H hy hyh hh
      exact ⟨a1, a2, a3, b1, b2, b3⟩
  | ne =>
      rw [resizeEdges_ne]
      obtain ⟨a1, a2, a3⟩ := dragHigh_bounds startRect.x startRect.width dx W hx hxw hw
      obtain ⟨b1, b2, b3⟩ := dragLow_bounds startRect.y startRect.height dy H hy hyh hh
      exact ⟨a1, a2, a3, b1, b2, b3⟩
  | sw =>
      rw [resizeEdges_sw]
      obtain ⟨a1, a2, a3⟩ := dragLow_bounds startRect.x startRect.width dx W hx hxw hw
      obtain ⟨b1, b2, b3⟩ := dragHigh_bounds startRect.y startRect.height dy H hy hyh hh
      exact ⟨a1, a2, a3, b1, b2, b3⟩
  | se =>
      rw [resizeEdges_se]
      obtain ⟨a1, a2, a3⟩ := dragHigh_bounds startRect.x startRect.width dx W hx hxw hw
      obtain ⟨b1, b2, b3⟩ := dragHigh_bounds startRect.y startRect.height dy H hy hyh hh
      exact ⟨a1, a2, a3, b1, b2, b3⟩

lemma aspect_sFallback_key (a w0 t b H : ℚ) (ha : a ≠ 0) (hw : 10 ≤ w0)
    (htb : t + 10 ≤ b) (hbH : b ≤ H) (hs : t + w0 / a > H) :
    0 < a ∧ (H - t) * a < w0 := by
  have hwpos : (0:ℚ) < w0 := by linarith
  have hdivpos : 0 < w0 / a := by linarith
  have hapos : 0 < a := by
    rcases lt_trichotomy a 0 with hneg | hzero | hpos
    · have := div_neg_of_pos_of_neg hwpos hneg
      linarith
    · exact absurd hzero ha
    · exact hpos
  refine ⟨hapos, ?_⟩
  have hs2 : H - t < w0 / a := by linarith
  have := mul_lt_mul_of_pos_right hs2 hapos
  rwa [div_mul_cancel₀ _ (ne_of_gt hapos)] at this

lemma aspect_nFallback_key (a w0 t b : ℚ) (ha : a ≠ 0) (hw : 10 ≤ w0)
    (htb : t + 10 ≤ b) (ht : 0 ≤ t) (hn : b - w0 / a < 0) :
    0 < a ∧ b * a < w0 := by
  have hwpos : (0:ℚ) < w0 := by linarith
  have hdivpos : 0 < w0 / a := by linarith
  have hapos : 0 < a := by
    rcases lt_trichotomy a 0 with hneg | hzero | hpos
    · have := div_neg_of_pos_of_neg hwpos hneg
      linarith
    · exact absurd hzero ha
    · exact hpos
  refine ⟨hapos, ?_⟩
  have hs2 : b < w0 / a := by linarith
  have := mul_lt_mul_of_pos_right hs2 hapos
  rwa [div_mul_cancel₀ _ (ne_of_gt hapos)] at this

lemma aspectAdjust_contained (dt : DragType) (hdt : dt ≠ DragType.move)
    (a : ℚ) (ha : a ≠ 0) (e : Edges) (W H : ℚ)
    (h1 : 0 ≤ e.l) (h2 : e.l + 10 ≤ e.r) (h3 : e.r ≤ W)
    (h4 : 0 ≤ e.t) (h5 : e.t + 10 ≤ e.b) (h6 : e.b ≤ H) :
    0 ≤ (aspectAdjust dt a e H).l ∧ 0 ≤ (aspectAdjust dt a e H).t ∧
    (aspectAdjust dt a e H).r ≤ W ∧ (aspectAdjust dt a e H).b ≤ H := by
  cases dt with
  | move => exact absurd rfl hdt
  | se =>
      simp only [aspectAdjust, hasSEdge, hasNEdge, eq_self_iff_true, true_and,
        Bool.false_eq_true, false_and, if_false]
      split_ifs with hs
      · obtain ⟨hapos, hkey⟩ :=
          aspect_sFallback_key a (e.r - e.l) e.t e.b H ha (by linarith) h5 h6 hs
        exact ⟨h1, h4, by linarith, by linarith⟩
      · push_neg at hs
        exact ⟨h1, h4, by linarith, by linarith⟩
  | sw =>
      simp only [aspectAdjust, hasSEdge, hasNEdge, eq_self_iff_true, true_and,
        Bool.false_eq_true, false_and, if_false]
      split_ifs with hs
      · obtain ⟨hapos, hkey⟩ :=
          aspect_sFallback_key a (e.r - e.l) e.t e.b H ha (by linarith) h5 h6 hs
        exact ⟨by linarith, h4, by linarith, by linarith⟩
      · push_neg at hs
        exact ⟨by linarith, h4, by linarith, by linarith⟩
  | ne =>
      simp only [aspectAdjust, hasSEdge, hasNEdge, eq_self_iff_true, true_and,
        Bool.false_eq_true, false_and, if_false]
      split_ifs with hn
      · obtain ⟨hapos, hkey⟩ :=
          aspect_nFallback_key a (e.r - e.l) e.t e.b ha (by linarith) h5 h4 hn
        exact ⟨h1, by linarith, by linarith, by linarith⟩
      · push_neg at hn
        exact ⟨h1, by linarith, by linarith, by linarith⟩
  | nw =>
      simp only [aspectAdjust, hasSEdge, hasNEdge, eq_self_iff_true, true_and,
        Bool.false_eq_true, false_and, if_false]
      split_ifs with hn
      · obtain ⟨hapos, hkey⟩ :=
          aspect_nFallback_key a (e.r - e.l) e.t e.b ha (by linarith) h5 h4 hn
        exact ⟨by linarith, by linarith, by linarith, by linarith⟩
      · push_neg at hn
        exact ⟨by linarith, by linarith, by linarith, by linarith⟩

lemma aspectAdjust_ratio (dt : DragType) (hdt : dt ≠ DragType.move)
    (a : ℚ) (hapos : 0 < a) (e : Edges) (H : ℚ)
    (h2 : e.l + 10 ≤ e.r) (h4 : 0 ≤ e.t) (h5 : e.t + 10 ≤ e.b) (h6 : e.b ≤ H) :
    0 < (aspectAdjust dt a e H).b - (aspectAdjust dt a e H).t ∧
    (aspectAdjust dt a e H).r - (aspectAdjust dt a e H).l =
      ((aspectAdjust dt a e H).b - (aspectAdjust dt a e H).t) * a := by
  have hdiv : 0 < (e.r - e.l) / a := div_pos (by linarith) hapos
  have hcancel : (e.r - e.l) / a * a = e.r - e.l :=
    div_mul_cancel₀ _ (ne_of_gt hapos)
  cases dt with
  | move => exact absurd rfl hdt
  | se =>
      simp only [aspectAdjust, hasSEdge, hasNEdge, eq_self_iff_true, true_and,
        Bool.false_eq_true, false_and, if_false]
      split_ifs with hs
      · exact ⟨by linarith, by ring⟩
      · exact ⟨by linarith, by linarith [hcancel]⟩
  | sw =>
      simp only [aspectAdjust, hasSEdge, hasNEdge, eq_self_iff_true, true_and,
        Bool.false_eq_true, false_and, if_false]
      split_ifs with hs
      · exact ⟨by linarith, by ring⟩
      · exact ⟨by linarith, by linarith [hcancel]⟩
  | ne =>
      simp only [aspectAdjust, hasSEdge, hasNEdge, eq_self_iff_true, true_and,
        Bool.false_eq_true, false_and, if_false]
      split_ifs with hn
      · exact ⟨by linarith, by ring⟩
      · exact ⟨by linarith, by linarith [hcancel]⟩
  | nw =>
      simp only [aspectAdjust, hasSEdge, hasNEdge, eq_self_iff_true, true_and,
        Bool.false_eq_true, false_and, if_false]
      split_ifs with hn
      · exact ⟨by linarith, by ring⟩
      · exact ⟨by linarith, by linarith [hcancel]⟩

/-- C1 (amended): every rectangle emitted by the crop drag handler is
contained in the intermediate image bounds; when no aspect ratio is
locked, and likewise for plain move drags under any aspect lock, it
additionally keeps the 10-pixel minimum size, i.e. the full
bounds/min-size invariant holds. Under an aspect-ratio lock the minimum
size part of the invariant can be violated by corner resizes. -/
theorem crop_drag_contained (dragType : DragType) (startRect : CropRect)
    (screenDx screenDy scale W H : ℚ) (aspectRatio : Option ℚ)
    (hinv : rectInvariant startRect W H) :
    rectContained
      (handleWindowMove dragType startRect screenDx screenDy scale W H aspectRatio) W H ∧
    (aspectRatio = none →
      rectInvariant
        (handleWindowMove dragType startRect screenDx screenDy scale W H aspectRatio) W H) ∧
    (dragType = DragType.move →
      rectInvariant
        (handleWindowMove dragType startRect screenDx screenDy scale W H aspectRatio) W H) := by
  obtain ⟨⟨hx, hy, hxw, hyh⟩, hw, hh⟩ := hinv
  by_cases hdt : dragType = DragType.move
  · simp only [handleWindowMove, if_pos hdt, rectContained, rectInvariant]
    have hxbound : max 0 (min (startRect.x + toImageDelta screenDx scale)
        (W - startRect.width)) ≤ W - startRect.width :=
      max_le (by linarith) (min_le_right _ _)
    have hybound : max 0 (min (startRect.y + toImageDelta screenDy scale)
        (H - startRect.height)) ≤ H - startRect.height :=
      max_le (by linarith) (min_le_right _ _)
    refine ⟨⟨le_max_left _ _, le_max_left _ _, by linarith, by linarith⟩,
      fun _ => ?_, fun _ => ?_⟩ <;>
      exact ⟨⟨le_max_left _ _, le_max_left _ _, by linarith, by linarith⟩, hw, hh⟩
  · obtain ⟨b1, b2, b3, b4, b5, b6⟩ :=
      resizeEdges_bounds dragType hdt startRect
        (toImageDelta screenDx scale) (toImageDelta screenDy scale) W H
        ⟨⟨hx, hy, hxw, hyh⟩, hw, hh⟩
    cases aspectRatio with
    | none =>
        simp only [handleWindowMove, if_neg hdt, rectContained, rectInvariant]
        exact ⟨⟨b1, b4, by linarith, by linarith⟩,
               fun _ => ⟨⟨b1, b4, by linarith, by linarith⟩, by linarith, by linarith⟩,
               fun hmv => absurd hmv hdt⟩
    | some a =>
        by_cases ha : a = 0
        · simp only [handleWindowMove, if_neg hdt, ha, if_pos rfl, if_true,
            eq_self_iff_true, rectContained]
          exact ⟨⟨b1, b4, by linarith, by linarith⟩, fun hcon => by simp at hcon,
                 fun hmv => absurd hmv hdt⟩
        · obtain ⟨c1, c2, c3, c4⟩ :=
            aspectAdjust_contained dragType hdt a ha
              (resizeEdges dragType startRect (toImageDelta screenDx scale)
                (toImageDelta screenDy scale) W H) W H b1 b2 b3 b4 b5 b6
          simp only [handleWindowMove, if_neg hdt, if_neg ha, rectContained]
          exact ⟨⟨c1, c2, by linarith, by linarith⟩, fun hcon => by simp at hcon,
                 fun hmv => absurd hmv hdt⟩

/-- Witness for C1 (amended): concrete drag steps on a rectangle satisfying
the invariant: a corner resize with no lock keeps the full invariant, and a
plain move under an aspect lock also keeps the full invariant. -/
theorem crop_drag_contained_witness :
    rectInvariant ⟨0, 0, 50, 50⟩ 100 100 ∧
    rectContained (handleWindowMove DragType.se ⟨0, 0, 50, 50⟩ 20 20 2 100 100 none) 100 100 ∧
    rectInvariant (handleWindowMove DragType.se ⟨0, 0, 50, 50⟩ 20 20 2 100 100 none) 100 100 ∧
    rectInvariant
      (handleWindowMove DragType.move ⟨0, 0, 50, 50⟩ 20 20 2 100 100 (some 2)) 100 100 := by
  have hinv : rectInvariant ⟨0, 0, 50, 50⟩ 100 100 := by
    norm_num [rectInvariant, rectContained]
  have h := crop_drag_contained DragType.se ⟨0, 0, 50, 50⟩ 20 20 2 100 100 none hinv
  have hm := crop_drag_contained DragType.move ⟨0, 0, 50, 50⟩ 20 20 2 100 100 (some 2) hinv
  exact ⟨hinv, h.1, h.2.1 rfl, hm.2.2 rfl⟩

/-- Counterexample to C1 as stated: with aspect ratio 10 locked, dragging
the se corner of the rectangle (0,0,50,50) inside a 100 by 100 image by one
screen pixel at scale 1 emits the rectangle (0,0,51,5.1), whose height
violates the 10-pixel minimum of the invariant. -/
theorem crop_drag_invariant_counterexample :
    rectInvariant ⟨0, 0, 50, 50⟩ 100 100 ∧
    handleWindowMove DragType.se ⟨0, 0, 50, 50⟩ 1 0 1 100 100 (some 10)
      = ⟨0, 0, 51, 51/10⟩ ∧
    ¬ rectInvariant
        (handleWindowMove DragType.se ⟨0, 0, 50, 50⟩ 1 0 1 100 100 (some 10)) 100 100 := by
  have hne : DragType.se ≠ DragType.move := by decide
  refine ⟨by norm_num [rectInvariant, rectContained], ?_, ?_⟩ <;>
    norm_num [handleWindowMove, if_neg hne, resizeEdges, aspectAdjust,
      toImageDelta, hasWEdge, hasEEdge, hasNEdge, hasSEdge, clampLow,
      clampHigh, rectInvariant, rectContained]

/-- C6: when an aspect ratio r is locked, after any single corner-resize
drag step the emitted rectangle's width/height ratio equals r within the
1e-6 tolerance (the computed ratio is in fact exactly r). -/
theorem crop_aspect_lock_ratio (dragType : DragType)
    (hdt : dragType ≠ DragType.move) (startRect : CropRect)
    (screenDx screenDy scale W H r : ℚ) (hr : 0 < r)
    (hinv : rectInvariant startRect W H) :
    |(handleWindowMove dragType startRect screenDx screenDy scale W H (some r)).width /
      (handleWindowMove dragType startRect screenDx screenDy scale W H (some r)).height
      - r| < 1/1000000 := by
  obtain ⟨b1, b2, b3, b4, b5, b6⟩ :=
    resizeEdges_bounds dragType hdt startRect
      (toImageDelta screenDx scale) (toImageDelta screenDy scale) W H hinv
  obtain ⟨hpos, heq⟩ :=
    aspectAdjust_ratio dragType hdt r hr
      (resizeEdges dragType startRect (toImageDelta screenDx scale)
        (toImageDelta screenDy scale) W H) H b2 b4 b5 b6
  simp only [handleWindowMove, if_neg hdt, if_neg (ne_of_gt hr)]
  rw [heq, mul_div_cancel_left₀ _ (ne_of_gt hpos)]
  norm_num

/-- Witness for C6: a concrete aspect-locked corner drag whose emitted
rectangle has width/height ratio exactly 2. -/
theorem crop_aspect_lock_ratio_witness :
    rectInvariant ⟨0, 0, 50, 50⟩ 100 100 ∧
    |(handleWindowMove DragType.se ⟨0, 0, 50, 50⟩ 20 20 2 100 100 (some 2)).width /
      (handleWindowMove DragType.se ⟨0, 0, 50, 50⟩ 20 20 2 100 100 (some 2)).height
      - 2| < 1/1000000 := by
  have hinv : rectInvariant ⟨0, 0, 50, 50⟩ 100 100 := by
    norm_num [rectInvariant, rectContained]
  exact ⟨hinv, crop_aspect_lock_ratio DragType.se (by decide) ⟨0, 0, 50, 50⟩
    20 20 2 100 100 2 (by norm_num) hinv⟩

/-- Output encodings supported by the configuration (types.ts format). -/
inductive ImageFormat where
  | jpeg
  | png
  | webp
deriving DecidableEq

/-- The editor configuration value object (types.ts ImageConfig, in the
variant that carries an explicit cropRect). -/
structure ImageConfig where
  rotation : ℤ
  cropRatio : Option ℚ
  cropRect : Option CropRect
  quality : ℚ
  targetWidth : ℚ
  targetHeight : ℚ
  flipHorizontal : Bool
  flipVertical : Bool
  format : ImageFormat

/-- A width/height pair, as returned by getTransformedDimensions. -/
structure Dims where
  width : ℚ
  height : ℚ
deriving DecidableEq

/-- Models getTransformedDimensions (types.ts): the rotated bounding box of
a width by height image swaps the two exactly when rotation is 90 or 270. -/
def getTransformedDimensions (width height : ℚ) (rotation : ℤ) : Dims :=
  if rotation = 90 ∨ rotation = 270 then ⟨height, width⟩ else ⟨width, height⟩

/-- The source rectangle of the crop and resize pass of processImage. -/
structure SourceRect where
  sx : ℚ
  sy : ℚ
  sWidth : ℚ
  sHeight : ℚ
deriving DecidableEq

/-- Models the source-rectangle selection of the crop and resize pass of
processImage (types.ts): an explicit cropRect wins, else a nonzero
cropRatio yields a centered crop, else the full intermediate raster. The
ratio-zero guard models the JS truthiness test on config.cropRatio. -/
def computeSourceRect (intermediateW intermediateH : ℚ)
    (cropRect : Option CropRect) (cropRatio : Option ℚ) : SourceRect :=
  match cropRect with
  | some r => ⟨r.x, r.y, r.width, r.height⟩
  | none =>
      match cropRatio with
      | some ratio =>
          if ratio = 0 then ⟨0, 0, intermediateW, intermediateH⟩
          else
            let currentRatio := intermediateW / intermediateH
            if currentRatio > ratio then
              ⟨(intermediateW - intermediateH * ratio) / 2, 0,
               intermediateH * ratio, intermediateH⟩
            else
              ⟨0, (intermediateH - intermediateW / ratio) / 2,
               intermediateW, intermediateW / ratio⟩
      | none => ⟨0, 0, intermediateW, intermediateH⟩

/-- Dimensions of the pass-1 intermediate canvas of processImage. -/
def intermediateDims (origW origH : ℚ) (config : ImageConfig) : Dims :=
  getTransformedDimensions origW origH config.rotation

/-- The source rectangle chosen by a processImage invocation. -/
def processImageSourceRect (origW origH : ℚ) (config : ImageConfig) : SourceRect :=
  computeSourceRect (intermediateDims origW origH config).width
    (intermediateDims origW origH config).height config.cropRect config.cropRatio

/-- Dimensions of the final canvas of processImage (types.ts): each axis is
the target size when positive, else the crop source size on that axis. -/
def processImageFinalDims (origW origH : ℚ) (config : ImageConfig) : Dims :=
  let s := processImageSourceRect origW origH config
  ⟨if config.targetWidth > 0 then config.targetWidth else s.sWidth,
   if config.targetHeight > 0 then config.targetHeight else s.sHeight⟩

/-- The pan/zoom view transform of the app shell: screen = content * scale
+ translation. -/
structure ViewTransform where
  scale : ℚ
  x : ℚ
  y : ℚ
deriving DecidableEq

/-- The content-space point currently under a screen point, computed the
way handleWheel and the zoom buttons compute it. -/
def contentCoord (vt : ViewTransform) (px py : ℚ) : ℚ × ℚ :=
  ((px - vt.x) / vt.scale, (py - vt.y) / vt.scale)

/-- Models handleWheel (App.tsx): scale delta is deltaY times the wheel
sensitivity of -0.001, the new scale is clamped to the interval from 0.05
to 10, and the translation is recomputed so the content point under the
mouse is preserved. -/
def handleWheel (vt : ViewTransform) (mouseX mouseY deltaY : ℚ) : ViewTransform :=
  let delta := deltaY * (-(1/1000))
  let newScale := min (max (1/20) (vt.scale + delta)) 10
  let contentX := (mouseX - vt.x) / vt.scale
  let contentY := (mouseY - vt.y) / vt.scale
  ⟨newScale, mouseX - contentX * newScale, mouseY - contentY * newScale⟩

/-- Models the zoomIn button (App.tsx): zoom by +0.2 toward the container
center, capped at scale 10. -/
def zoomIn (vt : ViewTransform) (containerW containerH : ℚ) : ViewTransform :=
  let centerX := containerW / 2
  let centerY := containerH / 2
  let newScale := min (vt.scale + 1/5) 10
  let contentX := (centerX - vt.x) / vt.scale
  let contentY := (centerY - vt.y) / vt.scale
  ⟨newScale, centerX - contentX * newScale, centerY - contentY * newScale⟩

/-- Models the zoomOut button (App.tsx): zoom by -0.2 toward the container
center, floored at scale 0.05. -/
def zoomOut (vt : ViewTransform) (containerW containerH : ℚ) : ViewTransform :=
  let centerX := containerW / 2
  let centerY := containerH / 2
  let newScale := max (vt.scale - 1/5) (1/20)
  let contentX := (centerX - vt.x) / vt.scale
  let contentY := (centerY - vt.y) / vt.scale
  ⟨newScale, centerX - contentX * newScale, centerY - contentY * newScale⟩

/-- Models resetView (App.tsx): fit the content into the container with a
40-pixel padding and center it. Note the computed scale is not capped. -/
def resetViewTransform (contentW contentH containerW containerH : ℚ) : ViewTransform :=
  let padding : ℚ := 40
  let scale := min ((containerW - padding) / contentW) ((containerH - padding) / contentH)
  ⟨scale, (containerW - contentW * scale) / 2, (containerH - contentH * scale) / 2⟩

/-- Models the first-load auto-fit effect (App.tsx): available space is
floored at 100 pixels per axis, the scale is capped at 1, and the content
is centered. -/
def autoFitTransform (naturalW naturalH containerW containerH : ℚ) : ViewTransform :=
  let padding : ℚ := 40
  let availableW := max 100 (containerW - padding)
  let availableH := max 100 (containerH - padding)
  let scale := min (min (availableW / naturalW) (availableH / naturalH)) 1
  ⟨scale, (containerW - naturalW * scale) / 2, (containerH - naturalH * scale) / 2⟩

/-- Models the JS String.indexOf on a single character: -1 when absent. -/
def jsIndexOf (s : String) (c : Char) : ℤ :=
  if s.data.contains c then s.data.indexOf c else -1

/-- Models the JS String.charAt at a possibly out-of-range index, where JS
returns the empty string (here none). -/
def jsCharAt (s : String) (i : ℤ) : Option Char :=
  if 0 ≤ i ∧ i < (s.length : ℤ) then s.data.get? i.toNat else none

/-- Models the rough byte-size computation performed by handleProcess on
the data URL of a successful render. -/
def dataUrlByteSize (s : String) : ℚ :=
  let len : ℤ := s.length
  let base64Length : ℚ := (len : ℚ) - ((jsIndexOf s ',' + 1 : ℤ) : ℚ)
  let pad : ℚ :=
    if jsCharAt s (len - 2) = some '=' then 2
    else if jsCharAt s (len - 1) = some '=' then 1 else 0
  base64Length * (3/4) - pad

/-- The slice of App state touched by the render handlers. -/
structure AppState where
  processedImage : Option String
  intermediateImage : Option String
  processedSize : ℚ
  isProcessing : Bool

/-- Models handleProcess (App.tsx) applied to the outcome of the awaited
processImage call: on success store the new data URL and its size; on
failure only log; in both cases clear the isProcessing flag. -/
def handleProcess (st : AppState) (result : Except String String) : AppState :=
  match result with
  | Except.ok url =>
      { st with processedImage := some url,
                processedSize := dataUrlByteSize url,
                isProcessing := false }
  | Except.error _ => { st with isProcessing := false }

/-- Models updateIntermediateImage (App.tsx) applied to the outcome of the
awaited processImage call: on success store the new intermediate data URL;
on failure only log. -/
def updateIntermediateImage (st : AppState) (result : Except String String) : AppState :=
  match result with
  | Except.ok url => { st with intermediateImage := some url }
  | Except.error _ => st

/-- The JS remainder operator for integers: sign of the dividend. -/
def jsRem (a b : ℤ) : ℤ := if 0 ≤ a then a % b else -((-a) % b)

/-- Models the rotate-left button of ControlPanel. -/
def rotateLeft (r : ℤ) : ℤ := jsRem (r - 90 + 360) 360

/-- Models the rotate-right button of ControlPanel. -/
def rotateRight (r : ℤ) : ℤ := jsRem (r + 90) 360

/-- A rotate-button press. -/
inductive RotateOp where
  | left
  | right

/-- Applies one rotate-button press to the configuration rotation. -/
def applyRotateOp (r : ℤ) : RotateOp → ℤ
  | RotateOp.left => rotateLeft r
  | RotateOp.right => rotateRight r

/-- The rotation of INITIAL_CONFIG (App.tsx). -/
def initialRotation : ℤ := 0

/-- The documented rotation precondition of the pipeline. -/
def validRotation (r : ℤ) : Prop := r = 0 ∨ r = 90 ∨ r = 180 ∨ r = 270

/-- C2: getTransformedDimensions swaps width and height exactly when the
rotation is 90 or 270, the pipeline invoked with no crop and no resize
yields a final raster of exactly the transformed dimensions, and an 800 by
600 source at rotation 90 has intermediate dimensions 600 by 800. -/
theorem transformed_dims_pipeline (origW origH : ℚ) (config : ImageConfig)
    (hrect : config.cropRect = none) (hratio : config.cropRatio = none)
    (htw : config.targetWidth = 0) (hth : config.targetHeight = 0) :
    getTransformedDimensions origW origH config.rotation
      = (if config.rotation = 90 ∨ config.rotation = 270
          then Dims.mk origH origW else Dims.mk origW origH) ∧
    processImageFinalDims origW origH config
      = getTransformedDimensions origW origH config.rotation ∧
    getTransformedDimensions 800 600 90 = Dims.mk 600 800 := by
  refine ⟨rfl, ?_, by norm_num [getTransformedDimensions]⟩
  simp [processImageFinalDims, processImageSourceRect, computeSourceRect,
    intermediateDims, hrect, hratio, htw, hth]

/-- Witness for C2: the no-crop no-resize pipeline at rotation 90 on an 800
by 600 source yields a 600 by 800 final raster. -/
theorem transformed_dims_pipeline_witness :
    processImageFinalDims 800 600
        ⟨90, none, none, 9/10, 0, 0, false, false, ImageFormat.jpeg⟩
      = getTransformedDimensions 800 600 90 ∧
    getTransformedDimensions 800 600 90 = Dims.mk 600 800 := by
  have h := transformed_dims_pipeline 800 600
    ⟨90, none, none, 9/10, 0, 0, false, false, ImageFormat.jpeg⟩
    rfl rfl rfl rfl
  exact ⟨h.2.1, h.2.2⟩

/-- C3: precedence of the crop source rectangle: an explicit cropRect is
used verbatim; otherwise a positive cropRatio yields a centered crop of
that ratio (cropping width when the intermediate ratio exceeds the target
ratio, else cropping height); otherwise the full intermediate raster. -/
theorem crop_source_rect_precedence (iW iH ρ : ℚ) (r : CropRect) (hρ : 0 < ρ)
    (anyRatio : Option ℚ) :
    computeSourceRect iW iH (some r) anyRatio = ⟨r.x, r.y, r.width, r.height⟩ ∧
    (iW / iH > ρ →
      computeSourceRect iW iH none (some ρ)
        = ⟨(iW - iH * ρ) / 2, 0, iH * ρ, iH⟩) ∧
    (¬ iW / iH > ρ →
      computeSourceRect iW iH none (some ρ)
        = ⟨0, (iH - iW / ρ) / 2, iW, iW / ρ⟩) ∧
    computeSourceRect iW iH none none = ⟨0, 0, iW, iH⟩ := by
  refine ⟨rfl, ?_, ?_, rfl⟩ <;> intro hcase <;>
    simp [computeSourceRect, ne_of_gt hρ, hcase]

/-- Witness for C3: the three precedence branches evaluated on a 160 by 90
intermediate raster with ratio 1. -/
theorem crop_source_rect_precedence_witness :
    computeSourceRect 160 90 (some ⟨1, 2, 30, 40⟩) (some 1) = ⟨1, 2, 30, 40⟩ ∧
    computeSourceRect 160 90 none (some 1) = ⟨(160 - 90 * 1) / 2, 0, 90 * 1, 90⟩ ∧
    computeSourceRect 160 90 none none = ⟨0, 0, 160, 90⟩ := by
  have h := crop_source_rect_precedence 160 90 1 ⟨1, 2, 30, 40⟩ (by norm_num) (some 1)
  exact ⟨h.1, h.2.1 (by norm_num), h.2.2.2⟩

/-- C4: each axis of the final raster is the target size when positive and
the crop source size otherwise; in particular a 400 by 300 crop with both
targets 0 yields exactly a 400 by 300 final raster. -/
theorem final_dims_rule (origW origH : ℚ) (config : ImageConfig) :
    processImageFinalDims origW origH config =
      ⟨if config.targetWidth > 0 then config.targetWidth
        else (processImageSourceRect origW origH config).sWidth,
       if config.targetHeight > 0 then config.targetHeight
        else (processImageSourceRect origW origH config).sHeight⟩ ∧
    processImageFinalDims 800 600
        ⟨0, none, some ⟨100, 50, 400, 300⟩, 9/10, 0, 0, false, false, ImageFormat.jpeg⟩
      = Dims.mk 400 300 := by
  refine ⟨rfl, ?_⟩
  norm_num [processImageFinalDims, processImageSourceRect, computeSourceRect,
    intermediateDims, getTransformedDimensions]

/-- Counterexample to C5 as stated: with targetWidth 200, targetHeight 0
and a 400 by 300 cropRect, the code produces a 200 by 300 final raster, not
the 200 by 150 the claim asserts: the unresized axis is not scaled. -/
theorem resize_height_counterexample :
    processImageFinalDims 800 600
        ⟨0, none, some ⟨100, 50, 400, 300⟩, 9/10, 200, 0, false, false, ImageFormat.jpeg⟩
      = Dims.mk 200 300 ∧
    processImageFinalDims 800 600
        ⟨0, none, some ⟨100, 50, 400, 300⟩, 9/10, 200, 0, false, false, ImageFormat.jpeg⟩
      ≠ Dims.mk 200 150 := by
  norm_num [processImageFinalDims, processImageSourceRect, computeSourceRect,
    intermediateDims, getTransformedDimensions]

/-- C5 (amended): with targetWidth 200, targetHeight 0 and a cropRect of
width 400 and height 300, the final raster is 200 by 300: a target of 0
means no resize on that axis, so the height stays the crop height. -/
theorem resize_width_only (origW origH x y : ℚ) (config : ImageConfig)
    (hrect : config.cropRect = some ⟨x, y, 400, 300⟩)
    (htw : config.targetWidth = 200) (hth : config.targetHeight = 0) :
    processImageFinalDims origW origH config = Dims.mk 200 300 := by
  norm_num [processImageFinalDims, processImageSourceRect, computeSourceRect,
    intermediateDims, hrect, htw, hth]

/-- Witness for C5 (amended): the concrete scenario evaluated. -/
theorem resize_width_only_witness :
    processImageFinalDims 800 600
        ⟨0, none, some ⟨100, 50, 400, 300⟩, 9/10, 200, 0, false, false, ImageFormat.jpeg⟩
      = Dims.mk 200 300 :=
  resize_width_only 800 600 100 50
    ⟨0, none, some ⟨100, 50, 400, 300⟩, 9/10, 200, 0, false, false, ImageFormat.jpeg⟩
    rfl rfl rfl

lemma zoom_center_preserved (s ns x p : ℚ) (hs : s ≠ 0) (hns : ns ≠ 0) :
    (p - (p - (p - x) / s * ns)) / ns = (p - x) / s := by
  field_simp
  ring

/-- C7: the wheel zoom and both zoom buttons (which use the container
center as the pointer) leave the content-space coordinate of the point
under the pointer unchanged, hence within the 1e-6 tolerance. -/
theorem zoom_preserves_content_point (vt : ViewTransform)
    (px py deltaY cw ch : ℚ) (hlo : 1/20 ≤ vt.scale) (_hhi : vt.scale ≤ 10) :
    contentCoord (handleWheel vt px py deltaY) px py = contentCoord vt px py ∧
    contentCoord (zoomIn vt cw ch) (cw/2) (ch/2) = contentCoord vt (cw/2) (ch/2) ∧
    contentCoord (zoomOut vt cw ch) (cw/2) (ch/2) = contentCoord vt (cw/2) (ch/2) := by
  have hs : vt.scale ≠ 0 := by positivity
  have hw : (1/20 : ℚ) ≤ min (max (1/20) (vt.scale + deltaY * (-(1/1000)))) 10 :=
    le_min (le_max_left _ _) (by norm_num)
  have hi : (1/20 : ℚ) ≤ min (vt.scale + 1/5) 10 :=
    le_min (by linarith) (by norm_num)
  have ho : (1/20 : ℚ) ≤ max (vt.scale - 1/5) (1/20) := le_max_right _ _
  refine ⟨?_, ?_, ?_⟩ <;>
    simp only [contentCoord, handleWheel, zoomIn, zoomOut, Prod.mk.injEq] <;>
    exact ⟨zoom_center_preserved _ _ _ _ hs (by linarith),
           zoom_center_preserved _ _ _ _ hs (by linarith)⟩

/-- Witness for C7: a concrete zoom step at scale 1 preserves the content
point under the pointer. -/
theorem zoom_preserves_content_point_witness :
    contentCoord (handleWheel ⟨1, 5, 7⟩ 3 4 100) 3 4 = contentCoord ⟨1, 5, 7⟩ 3 4 ∧
    contentCoord (zoomIn ⟨1, 5, 7⟩ 800 600) (800/2) (600/2)
      = contentCoord ⟨1, 5, 7⟩ (800/2) (600/2) := by
  have h := zoom_preserves_content_point ⟨1, 5, 7⟩ 3 4 100 800 600
    (by norm_num) (by norm_num)
  exact ⟨h.1, h.2.1⟩

/-- Counterexample to C8 as stated: the view reset does not cap the scale
at 1: fitting 10 by 10 content into a 1000 by 1000 container sets scale 96. -/
theorem reset_view_scale_counterexample :
    (resetViewTransform 10 10 1000 1000).scale = 96 ∧
    1 < (resetViewTransform 10 10 1000 1000).scale := by
  norm_num [resetViewTransform]

/-- C8 (amended): the first-load auto-fit sets scale to the minimum of the
padded fit ratios and 1 — never above 1 — and centers the content (with a
100-pixel floor on the available space, inactive for containers of side at
least 140); the view reset uses the same fit formula and centering but
without the cap at 1, so its scale can exceed 1. -/
theorem fit_to_container_spec (w h cw ch : ℚ) (hcw : 140 ≤ cw) (hch : 140 ≤ ch) :
    (autoFitTransform w h cw ch).scale ≤ 1 ∧
    autoFitTransform w h cw ch =
      ⟨min (min ((cw - 40) / w) ((ch - 40) / h)) 1,
       (cw - w * min (min ((cw - 40) / w) ((ch - 40) / h)) 1) / 2,
       (ch - h * min (min ((cw - 40) / w) ((ch - 40) / h)) 1) / 2⟩ ∧
    resetViewTransform w h cw ch =
      ⟨min ((cw - 40) / w) ((ch - 40) / h),
       (cw - w * min ((cw - 40) / w) ((ch - 40) / h)) / 2,
       (ch - h * min ((cw - 40) / w) ((ch - 40) / h)) / 2⟩ := by
  have hfw : max (100:ℚ) (cw - 40) = cw - 40 := max_eq_right (by linarith)
  have hfh : max (100:ℚ) (ch - 40) = ch - 40 := max_eq_right (by linarith)
  exact ⟨min_le_right _ _, by simp [autoFitTransform, hfw, hfh], rfl⟩

/-- Witness for C8 (amended): concrete 200 by 100 content in an 840 by 440
container. -/
theorem fit_to_container_spec_witness :
    (autoFitTransform 200 100 840 440).scale ≤ 1 ∧
    (resetViewTransform 200 100 840 440).scale
      = min ((840 - 40) / 200) ((440 - 40) / 100) := by
  have h := fit_to_container_spec 200 100 840 440 (by norm_num) (by norm_num)
  exact ⟨h.1, by rw [h.2.2]⟩

/-- C9: a failed pipeline invocation does not modify the stored rasters:
both the error branch of handleProcess and the error branch of
updateIntermediateImage leave processedImage and intermediateImage exactly
as they were, so the last successfully rendered rasters stay displayed. -/
theorem render_failure_preserves_rasters (st : AppState) (e : String) :
    (handleProcess st (Except.error e)).processedImage = st.processedImage ∧
    (handleProcess st (Except.error e)).intermediateImage = st.intermediateImage ∧
    (updateIntermediateImage st (Except.error e)).processedImage = st.processedImage ∧
    (updateIntermediateImage st (Except.error e)).intermediateImage = st.intermediateImage :=
  ⟨rfl, rfl, rfl, rfl⟩

instance : DecidablePred validRotation := fun r => by
  unfold validRotation; infer_instance

lemma validRotation_step (r : ℤ) (hr : validRotation r) (op : RotateOp) :
    validRotation (applyRotateOp r op) := by
  rcases hr with h | h | h | h <;> subst h <;> cases op <;> decide

/-- C10: starting from the initial rotation 0, every sequence of
rotate-left and rotate-right button presses keeps the rotation in
the set of right angles 0, 90, 180, 270 required by the pipeline. -/
theorem rotation_stays_valid (ops : List RotateOp) :
    validRotation (ops.foldl applyRotateOp initialRotation) := by
  have hgen : ∀ (l : List RotateOp) (r : ℤ), validRotation r →
      validRotation (l.foldl applyRotateOp r) := by
    intro l
    induction l with
    | nil => exact fun r hr => hr
    | cons op tl ih => exact fun r hr => ih _ (validRotation_step r hr op)
  exact hgen ops initialRotation (Or.inl rfl)

end PicStudio
